import Mathlib

/-!
# Conway's Game of Life API: engine (`life`), board store (`store`) and handler (`server`)

Shallow embedding of `life/life.go`, `store/life.go` and `handleBoardGet` of `server/server.go`.

* A Go slice `[]T` is a `List T`; `[][]bool` is `Grid`.
* A Go `int` used as an index or loop variable is an `Int`; the one `int` that the code
  increments without a bound, `Board.Generation`, wraps as in Go (`wrapInt`).  An index
  expression `xs[i]` is `index xs i`, which is `none` exactly where Go panics
  (index out of range), so every function that indexes returns an `Option`.
* `for i := range xs` is `forRange xs.length body`.
* The `DB` interface is a record of functions over an abstract store state; `LifeStore.Get`
  returns, besides its values, the store state it leaves and the list of its calls on the port
  and of `life.NextGeneration`, in order.
-/

/-- A grid of cells: rows of booleans, the rows need not have one length. -/
abbrev Grid := List (List Bool)

/-- Go's `xs[i]` as a read: `none` where Go panics. -/
def index {α : Type} (xs : List α) (i : Int) : Option α :=
  if i < 0 then none else xs.get? i.toNat

/-- Go's `xs[i] = v`: `none` where Go panics. -/
def setIndex {α : Type} (xs : List α) (i : Int) (v : α) : Option (List α) :=
  if 0 ≤ i ∧ i < xs.length then some (xs.set i.toNat v) else none

/-- Go's `for i := range n` over a state that the body may update or panic on. -/
def forRange {σ : Type} (n : Nat) (body : Nat → σ → Option σ) (s : σ) : Option σ :=
  (List.range n).foldlM (fun acc i => body i acc) s

/-- Go's `int` on a 64-bit platform: the value Go gives to an `int` expression whose mathematical
value is `x`, that is `x` wrapped into the range from `-2^63` to `2^63 - 1`. -/
def wrapInt (x : Int) : Int :=
  (x + 9223372036854775808) % 18446744073709551616 - 9223372036854775808

namespace life

/-- The `board` struct of `life.go`. -/
structure board where
  current : Grid
  next : Grid
  final : Bool
deriving DecidableEq, Repr

/-- Body of the inner loop of `countNeighbors`, for one `(i, j)`. -/
def countNeighborsBody (b : board) (x y i j : Int) (count : Int) : Option Int :=
  -- skip the current cell
  if i = x ∧ j = y then some count
  -- don't access out of slice bounds
  else if i < 0 ∨ i ≥ b.current.length then some count
  else
    match index b.current i with
    | none => none
    | some row =>
      if j < 0 ∨ j ≥ row.length then some count
      else
        match index row j with
        | none => none
        | some cell => if cell then some (count + 1) else some count

/-- Method `countNeighbors` of `life.go`: `i` runs over `x-1 .. x+1` and `j` over `y-1 .. y+1`. -/
def countNeighbors (b : board) (x y : Int) : Option Int :=
  [x - 1, x, x + 1].foldlM
    (fun count i => [y - 1, y, y + 1].foldlM (fun count j => countNeighborsBody b x y i j count) count)
    0

/-- Go's `b.next[i][j] = v`. -/
def setNext (b : board) (i j : Int) (v : Bool) : Option board :=
  match index b.next i with
  | none => none
  | some row =>
    match setIndex row j v with
    | none => none
    | some row1 =>
      match setIndex b.next i row1 with
      | none => none
      | some next1 => some { b with next := next1 }

/-- Body of the inner loop of `nextGeneration`, for the cell `(i, j)`. -/
def nextGenerationBody (i j : Nat) (b : board) : Option board :=
  match index b.current i with
  | none => none
  | some row =>
    match index row j with
    | none => none
    | some alive =>
      match countNeighbors b i j with
      | none => none
      | some count =>
        let updated : Option board :=
          if count = 3 then setNext b i j true
          else if count = 2 then setNext b i j alive
          else some b
        match updated with
        | none => none
        | some b1 =>
          match index b1.next i with
          | none => none
          | some nrow =>
            match index nrow j with
            | none => none
            | some v => if v then some { b1 with final := false } else some b1

/-- Body of the outer loop of `nextGeneration`: the loop over row `i`. -/
def nextGenerationRow (i : Nat) (b : board) : Option board :=
  match index b.current i with
  | none => none
  | some row => forRange row.length (nextGenerationBody i) b

/-- Method `nextGeneration` of `life.go`. -/
def nextGeneration (b : board) : Option board :=
  forRange b.current.length nextGenerationRow b

/-- The allocation of `next` in `NextGeneration`: `make([][]bool, len(input))`, then the loop
`for i := range b.next { b.next[i] = make([]bool, len(input[i])) }`. -/
def allocNext (input : Grid) : Option Grid :=
  forRange input.length
    (fun i next =>
      match index input i with
      | none => none
      | some row => setIndex next i (List.replicate row.length false))
    (List.replicate input.length [])

/-- Function `NextGeneration` of `life.go`. -/
def NextGeneration (input : Grid) : Option (Grid × Bool) :=
  match allocNext input with
  | none => none
  | some next =>
    match nextGeneration { current := input, next := next, final := true } with
    | none => none
    | some b1 => some (b1.next, b1.final)

end life

/-! ## Grids of the test -/

/-- The blinker of `cmd_test.go`: the three middle cells of the middle row alive. -/
def blinkerH : Grid :=
  [[false, false, false, false, false],
   [false, false, false, false, false],
   [false, true, true, true, false],
   [false, false, false, false, false],
   [false, false, false, false, false]]

/-- The blinker turned: the three middle cells of the middle column alive. -/
def blinkerV : Grid :=
  [[false, false, false, false, false],
   [false, false, true, false, false],
   [false, false, true, false, false],
   [false, false, true, false, false],
   [false, false, false, false, false]]

/-- The 5x5 grid with no live cell. -/
def dead5 : Grid := List.replicate 5 (List.replicate 5 false)

/-- The board of `cmd_test.go` "with a final generation". -/
def dyingGrid : Grid :=
  [[false, false, false, false, false],
   [false, false, true, false, false],
   [false, true, true, true, false],
   [false, false, false, true, false],
   [false, false, false, false, false]]

namespace store

/-- The `Board` struct of `store/life.go`.  `Generation` is a Go `int`: the only arithmetic on
it is `Generation++`, which wraps at `2^63` (`wrapInt`). -/
structure Board where
  Cells : Grid
  Generation : Int
  Final : Bool
deriving DecidableEq, Repr

/-- Go `error` values: `errors.New(text)` and `fmt.Errorf("context: %w", err)`. -/
inductive Error where
  | new (text : String)
  | wrap (context : String) (err : Error)
deriving DecidableEq, Repr

/-- Go's `errors.Is(err, target)`: `target` occurs in the chain of `err`. -/
def Error.Is : Error → Error → Bool
  | .new text, target => decide (Error.new text = target)
  | .wrap context err, target => decide (Error.wrap context err = target) || Error.Is err target

/-- The variable `ErrNotFound` of `store/life.go`. -/
def ErrNotFound : Error := .new "not found"

/-- The `DB` interface of `store/life.go`, over a store state `σ`.  `Get` reads the state;
`Create` and `Save` return the state they leave behind together with their `error`. -/
structure DB (σ : Type) where
  Create : σ → Grid → (Int × Option Error) × σ
  Get : σ → Int → Except Error Board
  Save : σ → Int → Board → Option Error × σ

/-- The `LifeStore` struct of `store/life.go`. -/
structure LifeStore (σ : Type) where
  db : DB σ

/-- What a call of `LifeStore.Get` does that can be observed from outside: calls on the port and
calls of `life.NextGeneration`, in the order they happen. -/
inductive Event where
  | dbGet (id : Int)
  | step
  | dbSave (id : Int) (board : Board)
deriving DecidableEq, Repr

/-- The four values returned by `LifeStore.Get`; a `nil` slice is `[]`, a `nil` error is `none`. -/
structure GetResult where
  cells : Grid
  generation : Int
  final : Bool
  err : Option Error
deriving DecidableEq, Repr

/-- Method `LifeStore.Create` of `store/life.go`. -/
def LifeStore.Create {σ : Type} (ls : LifeStore σ) (s : σ) (board : Grid) :
    (Int × Option Error) × σ :=
  match ls.db.Create s board with
  | ((_, some err), s1) => ((-1, some (.wrap "save" err)), s1)
  | ((id, none), s1) => ((id, none), s1)

/-- The loop `for range generations` of `LifeStore.Get`, with `n` iterations left: returns the
board at loop exit and the number of calls of `life.NextGeneration` made. -/
def advanceLoop : Nat → Board → Option (Board × Nat)
  | 0, board => some (board, 0)
  | n + 1, board =>
    match life.NextGeneration board.Cells with
    | none => none
    | some (cells, final) =>
      let board1 : Board :=
        { Cells := cells, Generation := wrapInt (board.Generation + 1), Final := final }
      if final then some (board1, 1)
      else
        match advanceLoop n board1 with
        | none => none
        | some (board2, k) => some (board2, k + 1)

/-- Method `LifeStore.Get` of `store/life.go`: the returned values, the store state left behind
and the events in order; `none` if the call panics. -/
def LifeStore.Get {σ : Type} (ls : LifeStore σ) (s : σ) (id generations : Int) :
    Option (GetResult × σ × List Event) :=
  match ls.db.Get s id with
  | .error err =>
    some ({ cells := [], generation := -1, final := false, err := some (.wrap "get" err) },
      s, [Event.dbGet id])
  | .ok board =>
    if generations = 0 ∨ board.Final = true then
      some ({ cells := board.Cells, generation := board.Generation, final := board.Final,
              err := none }, s, [Event.dbGet id])
    else
      -- `for range generations` runs no iteration when `generations` is negative
      match advanceLoop generations.toNat board with
      | none => none
      | some (board1, k) =>
        let log := Event.dbGet id :: (List.replicate k Event.step ++ [Event.dbSave id board1])
        match ls.db.Save s id board1 with
        | (some err, s1) =>
          some ({ cells := [], generation := -1, final := false, err := some (.wrap "save" err) },
            s1, log)
        | (none, s1) =>
          some ({ cells := board1.Cells, generation := board1.Generation, final := board1.Final,
                  err := none }, s1, log)

/-- State of an in-memory port: the last sequence number handed out and the records by id. -/
structure MemState where
  seq : Nat
  records : List (Int × Board)
deriving DecidableEq, Repr

/-- An in-memory port that behaves as `bolt.Conn` does when encoding and transactions succeed:
`Create` stores the grid at generation 0 under the next sequence number, `Get` returns the record
last stored under the id or `ErrNotFound` wrapped by `view`, `Save` overwrites the record. -/
def memDB : DB MemState where
  Create := fun s input =>
    (((s.seq + 1 : Nat), none),
      { seq := s.seq + 1
        records := ((s.seq + 1 : Nat), { Cells := input, Generation := 0, Final := false })
          :: s.records })
  Get := fun s id =>
    match s.records.lookup id with
    | none => .error (.wrap "view" ErrNotFound)
    | some board => .ok board
  Save := fun s id board => (none, { s with records := (id, board) :: s.records })

/-- Whether an event is a `Save` call on the port. -/
def Event.isSave : Event → Bool
  | .dbSave _ _ => true
  | _ => false

/-- Successive calls `Get(id, n)` for the step counts `n` of a list, each on the store state the
call before it left behind: the values returned, in order. -/
def LifeStore.GetEach {σ : Type} (ls : LifeStore σ) (s : σ) (id : Int) :
    List Int → Option (List GetResult)
  | [] => some []
  | n :: ns =>
    match ls.Get s id n with
    | none => none
    | some (res, s1, _) =>
      match LifeStore.GetEach ls s1 id ns with
      | none => none
      | some rs => some (res :: rs)

/-- The in-memory port with a `Save` that fails, as that of `bolt.Conn` does when the `Put` of
its transaction fails. -/
def readOnlyDB : DB MemState :=
  { memDB with
    Save := fun s _ _ =>
      (some (.wrap "update" (.wrap "put" (.new "database is in read-only mode"))), s) }

/-- The boards with which `TestRun` of `cmd_test.go` fills the store, under ids 1 to 4. -/
def testBoards : List Board :=
  [ { Cells := [[true]], Generation := 0, Final := false },
    { Cells := blinkerH, Generation := 0, Final := false },
    { Cells := dyingGrid, Generation := 0, Final := false },
    { Cells := blinkerH, Generation := 0, Final := false } ]

/-- The store state after `setupDB` of `cmd_test.go`: board `k` of `boards` under id `k + 1`. -/
def testState : MemState :=
  { seq := testBoards.length
    records := (List.range testBoards.length).zipWith (fun k board => ((k + 1 : Nat), board))
      testBoards }

end store

namespace store

/-- Go's `err.Error()`: the text of an `errors.New` value, and `context: text` for a wrapped
one. -/
def Error.Error : Error → String
  | .new text => text
  | .wrap context err => context ++ ": " ++ Error.Error err

end store

namespace server

open store

/-- What `handleBoardGet` reads from a request: `r.PathValue("id")`, `r.URL.Path`, and the
first value of the query parameter `state` when `params.Has("state")`. -/
structure Request where
  id : String
  path : String
  state : Option String
deriving DecidableEq, Repr

/-- What `handleBoardGet` writes: `errResponse(w, msg, code)`, or with status 200 the `output`
struct (encoded as JSON, or rendered by `web.BoardView` when the request accepts HTML). -/
inductive Response where
  | error (msg : String) (code : Int)
  | output (ID : Int) (Cells : Grid) (Generation : Int) (Final : Bool)
deriving DecidableEq, Repr

/-- Go's `strings.HasSuffix(r.URL.Path, "/final")`. -/
def finalRequired (r : Request) : Bool :=
  "/final".toList.isSuffixOf r.path.toList

/-- The part of `handleBoardGet` before the call `ls.Get(idInt, state)`: the response written
when it returns early, or the arguments `(idInt, state)` of the call.  `atoi` stands for
`strconv.Atoi`, `none` being its error. -/
def handleBoardGetArgs (atoi : String → Option Int) (r : Request) : Except Response (Int × Int) :=
  -- board id from path
  match atoi r.id with
  | none => .error (.error "invalid id" 400)
  | some idInt =>
    -- optional query param for state
    let state : Except Response Int :=
      match r.state with
      | none => .ok 0
      | some stateParam =>
        match atoi stateParam with
        | none => .error (.error "invalid state" 400)
        -- default to 1000 if state is too large
        | some stateInt => .ok (min 1000 stateInt)
    match state with
    | .error resp => .error resp
    | .ok state =>
      if finalRequired r = true ∧ state < 1 then
        .error (.error "state must be greater than 0" 400)
      else .ok (idInt, state)

/-- The handler returned by `handleBoardGet(ls)`: the response, the store state left behind and
the events of the call of `ls.Get`, if one is made. -/
def handleBoardGet {σ : Type} (atoi : String → Option Int) (ls : LifeStore σ) (s : σ)
    (r : Request) : Option (Response × σ × List Event) :=
  match handleBoardGetArgs atoi r with
  | .error resp => some (resp, s, [])
  | .ok (idInt, state) =>
    match ls.Get s idInt state with
    | none => none
    | some (res, s1, log) =>
      match res.err with
      | some err =>
        if err.Is ErrNotFound = true then some (.error "not found" 404, s1, log)
        else some (.error err.Error 500, s1, log)
      | none =>
        if finalRequired r = true ∧ res.final = false then
          some (.error "final state not reached" 400, s1, log)
        else some (.output idInt res.cells res.generation res.final, s1, log)

/-- Value of a decimal digit. -/
def digitValue (c : Char) : Option Nat :=
  if 48 ≤ c.toNat ∧ c.toNat ≤ 57 then some (c.toNat - 48) else none

/-- Value of a string of decimal digits, read after the digits worth `acc`. -/
def digitsValue : List Char → Nat → Option Nat
  | [], acc => some acc
  | c :: cs, acc =>
    match digitValue c with
    | none => none
    | some d => digitsValue cs (acc * 10 + d)

/-- A reading of decimal numerals as `strconv.Atoi` does it on a 64-bit platform: an optional
sign, then at least one digit, and an error outside the range of `int`.  It is used to run the
handler on concrete requests. -/
def decimalAtoi (text : String) : Option Int :=
  match text.toList with
  | [] => none
  | c :: cs =>
    if c = '-' then
      if cs = [] then none
      else (digitsValue cs 0).bind (fun n => if n ≤ 2 ^ 63 then some (-(n : Int)) else none)
    else if c = '+' then
      if cs = [] then none
      else (digitsValue cs 0).bind (fun n => if n < 2 ^ 63 then some (n : Int) else none)
    else (digitsValue (c :: cs) 0).bind (fun n => if n < 2 ^ 63 then some (n : Int) else none)

end server

/-! ## Specification vocabulary -/

/-- Position `(i, j)` lies inside `g` and holds a live cell. -/
def aliveAt (g : Grid) (i j : Int) : Prop :=
  0 ≤ i ∧ i < g.length ∧ 0 ≤ j ∧ j < (g.getD i.toNat []).length ∧
    (g.getD i.toNat []).getD j.toNat false = true

instance (g : Grid) (i j : Int) : Decidable (aliveAt g i j) := by
  unfold aliveAt; infer_instance

/-- Number of positions `(i, j) ≠ (x, y)` with `|i - x| ≤ 1`, `|j - y| ≤ 1` that are inside `g`
and alive. -/
def liveNeighbours (g : Grid) (x y : Int) : Nat :=
  ((Finset.Icc (x - 1) (x + 1) ×ˢ Finset.Icc (y - 1) (y + 1)).filter
    (fun p => p ≠ (x, y) ∧ aliveAt g p.1 p.2)).card

/-- Position `(r, c)` lies inside `g`. -/
def inside (g : Grid) (r c : Nat) : Prop :=
  r < g.length ∧ c < (g.getD r []).length

/-- Cell `(r, c)` of `g`, `none` outside `g`. -/
def cellAt (g : Grid) (r c : Nat) : Option Bool :=
  (g.get? r).bind (fun row => row.get? c)

/-- Grid `g` holds no live cell. -/
def noLive (g : Grid) : Prop := ∀ row ∈ g, ∀ cell ∈ row, cell = false

instance (g : Grid) : Decidable (noLive g) := by
  unfold noLive; infer_instance

/-- Conway's rule: alive with three live neighbours, or with two when already alive. -/
def rule (alive : Bool) (n : Nat) : Bool :=
  decide (n = 3 ∨ (n = 2 ∧ alive = true))

instance (g : Grid) (r c : Nat) : Decidable (inside g r c) := by
  unfold inside; infer_instance

/-- The grid returned by `NextGeneration`. -/
def nextGrid (g : Grid) : Grid :=
  match life.NextGeneration g with
  | some (next, _) => next
  | none => []

/-! ## Proof vocabulary -/

/-- The grid `g` with cell `(i, j)` replaced by `v`. -/
def setCell (g : Grid) (i j : Nat) (v : Bool) : Grid :=
  g.set i ((g.getD i []).set j v)

/-- The next state of cell `(r, c)` of `g` under Conway's rule. -/
def nextCell (g : Grid) (r c : Nat) : Bool :=
  rule ((g.getD r []).getD c false) (liveNeighbours g r c)

/-- State of the loops of `nextGeneration` on the grid `g` once the cells in `done` have been
visited: those hold their next state, the others are still `false`, and `final` records whether
a live cell has been written. -/
structure LoopInv (g : Grid) (done : Nat → Nat → Prop) (b : life.board) : Prop where
  current : b.current = g
  shape : b.next.map List.length = g.map List.length
  cells_done : ∀ r c, inside g r c → done r c → cellAt b.next r c = some (nextCell g r c)
  cells_todo : ∀ r c, inside g r c → ¬ done r c → cellAt b.next r c = some false
  final : b.final = true ↔ ∀ r c, inside g r c → done r c → nextCell g r c = false

/-! ## Indexing lemmas -/

theorem index_natCast {α : Type} (xs : List α) (n : Nat) : index xs (n : Int) = xs.get? n := by
  simp [index]

theorem index_eq_some_getD {α : Type} (xs : List α) (i : Int) (d : α) (h0 : 0 ≤ i)
    (h1 : i < xs.length) : index xs i = some (xs.getD i.toNat d) := by
  have h2 : i.toNat < xs.length := by omega
  have h3 : ¬ i < 0 := by omega
  simp [index, h3, List.getD, List.getElem?_eq_getElem h2]

/-! ## countNeighbors -/

/-- One pass of the inner loop body adds one exactly for a live in-grid position other than
`(x, y)`, and never reads out of bounds. -/
theorem countNeighborsBody_eq (b : life.board) (x y i j count : Int) :
    life.countNeighborsBody b x y i j count =
      some (count + if (i, j) ≠ (x, y) ∧ aliveAt b.current i j then 1 else 0) := by
  unfold life.countNeighborsBody
  by_cases hxy : i = x ∧ j = y
  · have hcond : ¬ ((i, j) ≠ (x, y) ∧ aliveAt b.current i j) := by
      intro h; exact h.1 (by rw [hxy.1, hxy.2])
    rw [if_pos hxy, if_neg hcond, add_zero]
  · have hne : (i, j) ≠ (x, y) := by
      intro h; apply hxy; exact ⟨congrArg Prod.fst h, congrArg Prod.snd h⟩
    rw [if_neg hxy]
    by_cases hi : i < 0 ∨ i ≥ b.current.length
    · have hcond : ¬ ((i, j) ≠ (x, y) ∧ aliveAt b.current i j) := by
        intro h; have h2 := h.2; unfold aliveAt at h2; omega
      rw [if_pos hi, if_neg hcond, add_zero]
    · rw [if_neg hi]
      have hi0 : 0 ≤ i := by omega
      have hi1 : i < b.current.length := by omega
      rw [index_eq_some_getD b.current i [] hi0 hi1]
      simp only []
      by_cases hj : j < 0 ∨ j ≥ (b.current.getD i.toNat []).length
      · have hcond : ¬ ((i, j) ≠ (x, y) ∧ aliveAt b.current i j) := by
          intro h; have h2 := h.2; unfold aliveAt at h2; omega
        rw [if_pos hj, if_neg hcond, add_zero]
      · rw [if_neg hj]
        have hj0 : 0 ≤ j := by omega
        have hj1 : j < (b.current.getD i.toNat []).length := by omega
        rw [index_eq_some_getD _ j false hj0 hj1]
        simp only []
        by_cases hc : (b.current.getD i.toNat []).getD j.toNat false = true
        · have hcond : (i, j) ≠ (x, y) ∧ aliveAt b.current i j := by
            refine ⟨hne, ?_⟩; unfold aliveAt; exact ⟨hi0, hi1, hj0, hj1, hc⟩
          rw [if_pos hc, if_pos hcond]
        · have hcond : ¬ ((i, j) ≠ (x, y) ∧ aliveAt b.current i j) := by
            intro h; have h2 := h.2; unfold aliveAt at h2; exact hc h2.2.2.2.2
          rw [if_neg hc, if_neg hcond, add_zero]

theorem Icc_three (x : Int) : Finset.Icc (x - 1) (x + 1) = {x - 1, x, x + 1} := by
  ext a
  simp only [Finset.mem_Icc, Finset.mem_insert, Finset.mem_singleton]
  omega

theorem sum_Icc_three (x : Int) (f : Int → Nat) :
    (∑ i in Finset.Icc (x - 1) (x + 1), f i) = f (x - 1) + f x + f (x + 1) := by
  rw [Icc_three]
  have h1 : x - 1 ∉ ({x, x + 1} : Finset Int) := by
    simp only [Finset.mem_insert, Finset.mem_singleton]; omega
  have h2 : x ∉ ({x + 1} : Finset Int) := by
    simp only [Finset.mem_singleton]; omega
  rw [Finset.sum_insert h1, Finset.sum_insert h2, Finset.sum_singleton]
  omega

theorem liveNeighbours_eq_sum (g : Grid) (x y : Int) :
    liveNeighbours g x y =
      ∑ i in Finset.Icc (x - 1) (x + 1), ∑ j in Finset.Icc (y - 1) (y + 1),
        if (i, j) ≠ (x, y) ∧ aliveAt g i j then 1 else 0 := by
  unfold liveNeighbours
  rw [Finset.card_filter, Finset.sum_product]

theorem countNeighbors_eq (b : life.board) (x y : Int) :
    life.countNeighbors b x y = some (liveNeighbours b.current x y : Int) := by
  rw [liveNeighbours_eq_sum, sum_Icc_three]
  simp only [sum_Icc_three]
  simp only [life.countNeighbors, List.foldlM, countNeighborsBody_eq, Option.bind_eq_bind,
    Option.some_bind, Option.pure_def]
  congr 1
  push_cast
  ring

theorem forRange_zero {σ : Type} (body : Nat → σ → Option σ) (s : σ) :
    forRange 0 body s = some s := rfl

theorem forRange_succ {σ : Type} (n : Nat) (body : Nat → σ → Option σ) (s : σ) :
    forRange (n + 1) body s = (forRange n body s).bind (body n) := by
  unfold forRange
  rw [List.range_succ, List.foldlM_append]
  cases h : List.foldlM (fun acc i => body i acc) s (List.range n) <;> simp [List.foldlM]

theorem cellAt_eq_some_of_inside (g : Grid) (r c : Nat) (h : inside g r c) :
    cellAt g r c = some ((g.getD r []).getD c false) := by
  obtain ⟨h1, h2⟩ := h
  unfold cellAt
  have e1 : g.get? r = some (g.getD r []) := by
    simp [List.getD, List.getElem?_eq_getElem h1]
  rw [e1]
  simp only [Option.some_bind]
  simp only [List.getD_eq_getElem?_getD] at h2 ⊢
  simp [List.getElem?_eq_getElem h2]

theorem inside_of_cellAt (g : Grid) (r c : Nat) (v : Bool) (h : cellAt g r c = some v) :
    inside g r c := by
  unfold cellAt at h
  unfold inside
  cases hr : g.get? r with
  | none => rw [hr] at h; simp at h
  | some row =>
    rw [hr] at h
    simp only [Option.some_bind] at h
    have h1 : r < g.length := by
      by_contra hc
      rw [List.get?_eq_none.mpr (by omega)] at hr
      cases hr
    have h2 : c < row.length := by
      by_contra hc
      rw [List.get?_eq_none.mpr (by omega)] at h
      cases h
    have e : g.getD r [] = row := by
      simp only [List.get?_eq_getElem?] at hr
      simp [List.getD, hr]
    rw [e]
    exact ⟨h1, h2⟩

theorem rowLen_eq_of_shape (g g1 : Grid) (h : g1.map List.length = g.map List.length) (r : Nat) :
    (g1.getD r []).length = (g.getD r []).length := by
  have h1 : (g1.map List.length)[r]? = (g.map List.length)[r]? := by rw [h]
  simp only [List.getElem?_map] at h1
  simp only [List.getD_eq_getElem?_getD]
  cases h2 : g1[r]? <;> cases h3 : g[r]? <;> simp [h2, h3] at h1 ⊢
  exact h1

theorem length_eq_of_shape (g g1 : Grid) (h : g1.map List.length = g.map List.length) :
    g1.length = g.length := by
  have := congrArg List.length h
  simpa using this

theorem inside_of_shape (g g1 : Grid) (h : g1.map List.length = g.map List.length) (r c : Nat) :
    inside g1 r c ↔ inside g r c := by
  unfold inside
  rw [rowLen_eq_of_shape g g1 h r, length_eq_of_shape g g1 h]

theorem shape_setCell (g : Grid) (i j : Nat) (v : Bool) :
    (setCell g i j v).map List.length = g.map List.length := by
  unfold setCell
  apply List.ext_getElem?
  intro n
  simp only [List.getElem?_map, List.getElem?_set, List.getD_eq_getElem?_getD]
  by_cases hn : i = n
  · subst hn
    by_cases hi : i < g.length
    · simp [hi, List.getElem?_eq_getElem hi]
    · simp [hi, List.getElem?_eq_none (Nat.le_of_not_lt hi)]
  · simp [hn]

theorem cellAt_setCell_same (g : Grid) (i j : Nat) (v : Bool) (h : inside g i j) :
    cellAt (setCell g i j v) i j = some v := by
  obtain ⟨h1, h2⟩ := h
  have e : g.getD i [] = g[i] := by simp [List.getD, List.getElem?_eq_getElem h1]
  rw [e] at h2
  unfold cellAt setCell
  simp [List.getElem?_set, h1, h2]

theorem cellAt_setCell_other (g : Grid) (i j r c : Nat) (v : Bool) (h : ¬ (r = i ∧ c = j)) :
    cellAt (setCell g i j v) r c = cellAt g r c := by
  unfold cellAt setCell
  simp only [List.get?_eq_getElem?, List.getElem?_set, List.getD_eq_getElem?_getD]
  by_cases hr : i = r
  · subst hr
    by_cases hi : i < g.length
    · have hc : ¬ j = c := fun e => h ⟨rfl, e.symm⟩
      simp [hi, List.getElem?_eq_getElem hi, List.getElem?_set, hc]
    · simp [hi, List.getElem?_eq_none (Nat.le_of_not_lt hi)]
  · simp [hr]

theorem setNext_eq (b : life.board) (i j : Nat) (v : Bool) (h : inside b.next i j) :
    life.setNext b i j v = some { b with next := setCell b.next i j v } := by
  obtain ⟨h1, h2⟩ := h
  unfold life.setNext
  rw [index_eq_some_getD b.next i [] (by omega) (by exact_mod_cast h1)]
  simp only [Int.toNat_ofNat]
  have e1 : setIndex (b.next.getD i []) (j : Int) v = some ((b.next.getD i []).set j v) := by
    unfold setIndex
    rw [if_pos ⟨by omega, by exact_mod_cast h2⟩]
    simp
  rw [e1]
  simp only []
  have e2 : setIndex b.next (i : Int) ((b.next.getD i []).set j v)
      = some (b.next.set i ((b.next.getD i []).set j v)) := by
    unfold setIndex
    rw [if_pos ⟨by omega, by exact_mod_cast h1⟩]
    simp
  rw [e2]
  rfl

theorem cellAt_eq_some_iff (g : Grid) (r c : Nat) (v : Bool) :
    cellAt g r c = some v ↔ ∃ row, g.get? r = some row ∧ row.get? c = some v := by
  unfold cellAt
  rw [Option.bind_eq_some]

theorem LoopInv.congr {g : Grid} {done done1 : Nat → Nat → Prop} {b : life.board}
    (h : LoopInv g done b) (e : ∀ r c, inside g r c → (done r c ↔ done1 r c)) :
    LoopInv g done1 b where
  current := h.current
  shape := h.shape
  cells_done := fun r c hin hd => h.cells_done r c hin ((e r c hin).mpr hd)
  cells_todo := fun r c hin hd => h.cells_todo r c hin (fun hd1 => hd ((e r c hin).mp hd1))
  final := by
    rw [h.final]
    constructor
    · intro k r c hin hd; exact k r c hin ((e r c hin).mpr hd)
    · intro k r c hin hd; exact k r c hin ((e r c hin).mp hd)

/-- The read-back `if b.next[i][j] { b.final = false }` at the end of the loop body. -/
theorem readBack_eq (b1 : life.board) (i j : Nat) (v : Bool) (h : cellAt b1.next i j = some v) :
    (match index b1.next (i : Int) with
      | none => none
      | some nrow =>
        match index nrow (j : Int) with
        | none => none
        | some v => if v = true then some { b1 with final := false } else some b1)
      = some (if v = true then { b1 with final := false } else b1) := by
  obtain ⟨row, h1, h2⟩ := (cellAt_eq_some_iff _ _ _ _).mp h
  rw [index_natCast, h1]
  simp only []
  rw [index_natCast, h2]
  simp only []
  split <;> rfl

/-- The write made by the loop body for cell `(i, j)`: afterwards `next[i][j]` holds the cell's
next state and nothing else has changed. -/
theorem updated_eq (g : Grid) (b : life.board) (i j : Nat) (hcur : b.current = g)
    (hshape : b.next.map List.length = g.map List.length)
    (hin : inside g i j) (hfalse : cellAt b.next i j = some false) :
    ∃ b1, (if (liveNeighbours g i j : Int) = 3 then life.setNext b i j true
          else if (liveNeighbours g i j : Int) = 2 then
            life.setNext b i j ((g.getD i []).getD j false)
          else some b) = some b1 ∧
      b1.current = g ∧ b1.final = b.final ∧
      b1.next.map List.length = g.map List.length ∧
      cellAt b1.next i j = some (nextCell g i j) ∧
      ∀ r c, ¬ (r = i ∧ c = j) → cellAt b1.next r c = cellAt b.next r c := by
  have hin1 : inside b.next i j := (inside_of_shape g b.next hshape i j).mpr hin
  by_cases h3 : liveNeighbours g i j = 3
  · refine ⟨{ b with next := setCell b.next i j true }, ?_, hcur, rfl, ?_, ?_, ?_⟩
    · rw [if_pos (by exact_mod_cast h3)]
      exact setNext_eq b i j true hin1
    · simp only [shape_setCell]; exact hshape
    · simp only [cellAt_setCell_same _ _ _ _ hin1, nextCell, rule, h3]; simp
    · intro r c hne; exact cellAt_setCell_other _ _ _ _ _ _ hne
  · by_cases h2 : liveNeighbours g i j = 2
    · refine ⟨{ b with next := setCell b.next i j ((g.getD i []).getD j false) }, ?_, hcur, rfl,
        ?_, ?_, ?_⟩
      · rw [if_neg (by exact_mod_cast h3), if_pos (by exact_mod_cast h2)]
        exact setNext_eq b i j _ hin1
      · simp only [shape_setCell]; exact hshape
      · simp only [cellAt_setCell_same _ _ _ _ hin1, nextCell, rule, h2]; simp
      · intro r c hne; exact cellAt_setCell_other _ _ _ _ _ _ hne
    · refine ⟨b, ?_, hcur, rfl, hshape, ?_, fun _ _ _ => rfl⟩
      · rw [if_neg (by exact_mod_cast h3), if_neg (by exact_mod_cast h2)]
      · rw [hfalse]; simp [nextCell, rule, h3, h2]

theorem nextGenerationBody_inv (g : Grid) (done : Nat → Nat → Prop) (b : life.board)
    (i j : Nat) (h : LoopInv g done b) (hin : inside g i j) (hnd : ¬ done i j) :
    ∃ b1, life.nextGenerationBody i j b = some b1 ∧
      LoopInv g (fun r c => done r c ∨ (r = i ∧ c = j)) b1 := by
  obtain ⟨u, hu, hucur, hufin, hushape, hucell, huother⟩ :=
    updated_eq g b i j h.current h.shape hin (h.cells_todo i j hin hnd)
  refine ⟨if nextCell g i j = true then { u with final := false } else u, ?_, ?_⟩
  · unfold life.nextGenerationBody
    have hcell := cellAt_eq_some_of_inside g i j hin
    obtain ⟨row, hr1, hr2⟩ := (cellAt_eq_some_iff _ _ _ _).mp hcell
    rw [h.current, index_natCast, hr1]
    simp only []
    rw [index_natCast, hr2]
    simp only []
    rw [countNeighbors_eq, h.current]
    simp only []
    rw [hu]
    simp only []
    exact readBack_eq u i j _ hucell
  · constructor
    · split <;> simp [hucur]
    · split <;> simp [hushape]
    · intro r c hrc hd
      have key : cellAt u.next r c = some (nextCell g r c) := by
        by_cases e : r = i ∧ c = j
        · rw [e.1, e.2]; exact hucell
        · rw [huother r c e]
          rcases hd with hd | hd
          · exact h.cells_done r c hrc hd
          · exact absurd hd e
      split <;> exact key
    · intro r c hrc hd
      have e : ¬ (r = i ∧ c = j) := fun e => hd (Or.inr e)
      have key : cellAt u.next r c = some false := by
        rw [huother r c e]
        exact h.cells_todo r c hrc (fun k => hd (Or.inl k))
      split <;> exact key
    · by_cases hn : nextCell g i j = true
      · rw [if_pos hn]
        simp only [Bool.false_eq_true, false_iff]
        intro k
        have := k i j hin (Or.inr ⟨rfl, rfl⟩)
        rw [hn] at this
        cases this
      · rw [if_neg hn, hufin, h.final]
        have hn1 : nextCell g i j = false := by simpa using hn
        constructor
        · intro k r c hrc hd
          rcases hd with hd | hd
          · exact k r c hrc hd
          · rw [hd.1, hd.2]; exact hn1
        · intro k r c hrc hd
          exact k r c hrc (Or.inl hd)

theorem nextGenerationRow_inv (g : Grid) (done : Nat → Nat → Prop) (b : life.board) (i : Nat)
    (h : LoopInv g done b) (hi : i < g.length) (hnd : ∀ c, ¬ done i c) :
    ∃ b1, life.nextGenerationRow i b = some b1 ∧ LoopInv g (fun r c => done r c ∨ r = i) b1 := by
  have loop : ∀ n, n ≤ (g.getD i []).length →
      ∃ b1, forRange n (life.nextGenerationBody i) b = some b1 ∧
        LoopInv g (fun r c => done r c ∨ (r = i ∧ c < n)) b1 := by
    intro n
    induction n with
    | zero =>
      intro _
      refine ⟨b, rfl, h.congr ?_⟩
      intro r c _
      simp
    | succ n ih =>
      intro hn
      obtain ⟨b1, hb1, hinv⟩ := ih (by omega)
      have hnot : ¬ (done i n ∨ (i = i ∧ n < n)) := by
        intro k
        rcases k with k | k
        · exact hnd n k
        · omega
      obtain ⟨b2, hb2, hinv2⟩ :=
        nextGenerationBody_inv g _ b1 i n hinv ⟨hi, by omega⟩ hnot
      refine ⟨b2, ?_, hinv2.congr ?_⟩
      · rw [forRange_succ, hb1]; exact hb2
      · intro r c _
        constructor
        · rintro ((k | k) | k)
          · exact Or.inl k
          · exact Or.inr ⟨k.1, by omega⟩
          · exact Or.inr ⟨k.1, by omega⟩
        · rintro (k | k)
          · exact Or.inl (Or.inl k)
          · by_cases e : c = n
            · exact Or.inr ⟨k.1, e⟩
            · exact Or.inl (Or.inr ⟨k.1, by omega⟩)
  obtain ⟨b1, hb1, hinv⟩ := loop (g.getD i []).length (le_refl _)
  refine ⟨b1, ?_, hinv.congr ?_⟩
  · unfold life.nextGenerationRow
    rw [h.current, index_eq_some_getD g i [] (by omega) (by exact_mod_cast hi)]
    simp only [Int.toNat_ofNat]
    exact hb1
  · intro r c hrc
    constructor
    · rintro (k | k)
      · exact Or.inl k
      · exact Or.inr k.1
    · rintro (k | k)
      · exact Or.inl k
      · refine Or.inr ⟨k, ?_⟩
        have := hrc.2
        rw [k] at this
        exact this

theorem nextGeneration_inv (g : Grid) (b : life.board) (h : LoopInv g (fun _ _ => False) b) :
    ∃ b1, life.nextGeneration b = some b1 ∧ LoopInv g (fun _ _ => True) b1 := by
  have loop : ∀ n, n ≤ g.length →
      ∃ b1, forRange n life.nextGenerationRow b = some b1 ∧ LoopInv g (fun r _ => r < n) b1 := by
    intro n
    induction n with
    | zero =>
      intro _
      refine ⟨b, rfl, h.congr ?_⟩
      intro r c _
      simp
    | succ n ih =>
      intro hn
      obtain ⟨b1, hb1, hinv⟩ := ih (by omega)
      obtain ⟨b2, hb2, hinv2⟩ :=
        nextGenerationRow_inv g _ b1 n hinv (by omega) (fun _ k => Nat.lt_irrefl n k)
      refine ⟨b2, ?_, hinv2.congr ?_⟩
      · rw [forRange_succ, hb1]; exact hb2
      · intro r c _
        constructor
        · rintro (k | k) <;> omega
        · intro k
          by_cases e : r = n
          · exact Or.inr e
          · exact Or.inl (by omega)
  obtain ⟨b1, hb1, hinv⟩ := loop g.length (le_refl _)
  refine ⟨b1, ?_, hinv.congr ?_⟩
  · unfold life.nextGeneration
    rw [h.current]
    exact hb1
  · intro r c hrc
    exact ⟨fun _ => trivial, fun _ => hrc.1⟩

theorem allocNext_eq (input : Grid) :
    life.allocNext input = some (input.map (fun row => List.replicate row.length false)) := by
  have loop : ∀ n, n ≤ input.length →
      ∃ next, forRange n
          (fun i next =>
            match index input i with
            | none => none
            | some row => setIndex next i (List.replicate row.length false))
          (List.replicate input.length []) = some next ∧
        next.length = input.length ∧
        ∀ i, i < n → next[i]? = input[i]?.map (fun row => List.replicate row.length false) := by
    intro n
    induction n with
    | zero =>
      intro _
      exact ⟨_, rfl, by simp, fun i hi => by omega⟩
    | succ n ih =>
      intro hn
      obtain ⟨next, h1, h2, h3⟩ := ih (by omega)
      have hlt : n < input.length := by omega
      refine ⟨next.set n (List.replicate (input.getD n []).length false), ?_, ?_, ?_⟩
      · rw [forRange_succ, h1]
        simp only [Option.some_bind]
        rw [index_eq_some_getD input n [] (by omega) (by exact_mod_cast hlt)]
        simp only [Int.toNat_ofNat]
        unfold setIndex
        rw [if_pos ⟨by omega, by rw [h2]; exact_mod_cast hlt⟩]
        simp
      · rw [List.length_set, h2]
      · intro i hi
        by_cases e : i = n
        · subst e
          simp [List.getElem?_set, h2, hlt, List.getElem?_eq_getElem hlt]
        · rw [List.getElem?_set_ne (fun k => e k.symm)]
          exact h3 i (by omega)
  obtain ⟨next, h1, h2, h3⟩ := loop input.length (le_refl _)
  unfold life.allocNext
  rw [h1]
  congr 1
  apply List.ext_getElem?
  intro i
  by_cases hi : i < input.length
  · rw [h3 i hi, List.getElem?_map]
  · rw [List.getElem?_eq_none (by omega), List.getElem?_eq_none (by simp; omega)]

theorem initial_inv (g : Grid) :
    LoopInv g (fun _ _ => False)
      { current := g, next := g.map (fun row => List.replicate row.length false), final := true }
    where
  current := rfl
  shape := by simp [Function.comp_def]
  cells_done := fun _ _ _ k => k.elim
  cells_todo := by
    intro r c hrc _
    obtain ⟨h1, h2⟩ := hrc
    have e : g.getD r [] = g[r] := by simp [List.getD, List.getElem?_eq_getElem h1]
    rw [e] at h2
    unfold cellAt
    simp [List.getElem?_map, List.getElem?_eq_getElem h1, List.getElem?_replicate, h2]
  final := by simp

/-- Summary of `NextGeneration`: it returns, the result has the shape of the input, every cell
holds its next state, and the flag is true exactly when no cell's next state is alive. -/
theorem NextGeneration_spec (g : Grid) :
    ∃ next final, life.NextGeneration g = some (next, final) ∧
      next.map List.length = g.map List.length ∧
      (∀ r c, inside g r c → cellAt next r c = some (nextCell g r c)) ∧
      (final = true ↔ ∀ r c, inside g r c → nextCell g r c = false) := by
  obtain ⟨b1, hb1, hinv⟩ := nextGeneration_inv g _ (initial_inv g)
  refine ⟨b1.next, b1.final, ?_, hinv.shape, fun r c hrc => hinv.cells_done r c hrc trivial, ?_⟩
  · unfold life.NextGeneration
    rw [allocNext_eq]
    simp only []
    rw [hb1]
  · rw [hinv.final]
    constructor
    · intro k r c hrc; exact k r c hrc trivial
    · intro k r c hrc _; exact k r c hrc

theorem noLive_iff_cellAt (g : Grid) :
    noLive g ↔ ∀ r c v, cellAt g r c = some v → v = false := by
  unfold noLive
  constructor
  · intro h r c v hv
    obtain ⟨row, h1, h2⟩ := (cellAt_eq_some_iff _ _ _ _).mp hv
    exact h row (List.get?_mem h1) v (List.get?_mem h2)
  · intro h row hrow cell hcell
    obtain ⟨r, hr⟩ := List.get?_of_mem hrow
    obtain ⟨c, hc⟩ := List.get?_of_mem hcell
    exact h r c cell ((cellAt_eq_some_iff _ _ _ _).mpr ⟨row, hr, hc⟩)

/-- The call `NextGeneration g` returns `nextGrid g`, with the flag true exactly when that grid
holds no live cell. -/
theorem NextGeneration_eq (g : Grid) :
    life.NextGeneration g = some (nextGrid g, decide (noLive (nextGrid g))) := by
  obtain ⟨next, final, h, hshape, hcells, hfinal⟩ := NextGeneration_spec g
  have e : nextGrid g = next := by unfold nextGrid; rw [h]
  rw [e, h]
  congr 2
  have : final = true ↔ noLive next := by
    rw [hfinal, noLive_iff_cellAt]
    constructor
    · intro k r c v hv
      have hin : inside g r c := (inside_of_shape g next hshape r c).mp (inside_of_cellAt _ _ _ _ hv)
      rw [hcells r c hin] at hv
      rw [← Option.some.inj hv]
      exact k r c hin
    · intro k r c hin
      exact k r c _ (hcells r c hin)
  cases final <;> simp_all

theorem liveNeighbours_le_eight (g : Grid) (x y : Int) : liveNeighbours g x y ≤ 8 := by
  unfold liveNeighbours
  have hsub : (Finset.Icc (x - 1) (x + 1) ×ˢ Finset.Icc (y - 1) (y + 1)).filter
        (fun p => p ≠ (x, y) ∧ aliveAt g p.1 p.2)
      ⊆ (Finset.Icc (x - 1) (x + 1) ×ˢ Finset.Icc (y - 1) (y + 1)).erase (x, y) := by
    intro p hp
    rw [Finset.mem_filter] at hp
    exact Finset.mem_erase.mpr ⟨hp.2.1, hp.1⟩
  have hmem : (x, y) ∈ Finset.Icc (x - 1) (x + 1) ×ˢ Finset.Icc (y - 1) (y + 1) := by
    simp only [Finset.mem_product, Finset.mem_Icc]; omega
  have hcard : (Finset.Icc (x - 1) (x + 1) ×ˢ Finset.Icc (y - 1) (y + 1)).card = 9 := by
    rw [Finset.card_product, Int.card_Icc, Int.card_Icc]
    have e1 : x + 1 + 1 - (x - 1) = 3 := by ring
    have e2 : y + 1 + 1 - (y - 1) = 3 := by ring
    rw [e1, e2]; rfl
  calc _ ≤ ((Finset.Icc (x - 1) (x + 1) ×ˢ Finset.Icc (y - 1) (y + 1)).erase (x, y)).card :=
        Finset.card_le_card hsub
    _ = 8 := by rw [Finset.card_erase_of_mem hmem, hcard]

/-! ## The store -/

open store

theorem wrapInt_wrapInt_add (x y : Int) : wrapInt (wrapInt x + y) = wrapInt (x + y) := by
  unfold wrapInt
  omega

theorem wrapInt_of_range (x : Int) (h0 : -9223372036854775808 ≤ x)
    (h1 : x ≤ 9223372036854775807) : wrapInt x = x := by
  unfold wrapInt
  omega

theorem advanceLoop_spec (n : Nat) (hn : 1 ≤ n) (b : Board) :
    ∃ k, 1 ≤ k ∧ k ≤ n ∧
      advanceLoop n b =
        some ({ Cells := nextGrid^[k] b.Cells, Generation := wrapInt (b.Generation + k),
                Final := decide (noLive (nextGrid^[k] b.Cells)) }, k) ∧
      (∀ i, 1 ≤ i → i < k → ¬ noLive (nextGrid^[i] b.Cells)) ∧
      (k < n → noLive (nextGrid^[k] b.Cells)) := by
  induction n generalizing b with
  | zero => omega
  | succ n ih =>
    by_cases hd : noLive (nextGrid b.Cells)
    · refine ⟨1, le_refl _, by omega, ?_, fun i h1 h2 => by omega, fun _ => hd⟩
      unfold advanceLoop
      rw [NextGeneration_eq]
      simp only [Function.iterate_one, decide_eq_true hd, if_true, Nat.cast_one]
    · by_cases hn0 : n = 0
      · subst hn0
        refine ⟨1, le_refl _, le_refl _, ?_, fun i h1 h2 => by omega, fun h => by omega⟩
        unfold advanceLoop
        rw [NextGeneration_eq]
        simp only [Function.iterate_one, decide_eq_false hd, Nat.cast_one]
        rfl
      · obtain ⟨k, hk1, hk2, hk3, hk4, hk5⟩ :=
          ih (by omega)
            { Cells := nextGrid b.Cells, Generation := wrapInt (b.Generation + 1),
              Final := false }
        refine ⟨k + 1, by omega, by omega, ?_, ?_, ?_⟩
        · unfold advanceLoop
          rw [NextGeneration_eq]
          simp only [decide_eq_false hd, Bool.false_eq_true, if_false]
          rw [hk3]
          simp only [Function.iterate_succ_apply, Nat.cast_add, Nat.cast_one]
          rw [wrapInt_wrapInt_add]
          congr 4
          ring
        · intro i hi1 hi2
          by_cases hi : i = 1
          · subst hi; exact hd
          · have := hk4 (i - 1) (by omega) (by omega)
            rw [← Function.iterate_succ_apply] at this
            have e : (i - 1).succ = i := by omega
            rw [e] at this
            exact this
        · intro hlt
          rw [Function.iterate_succ_apply]
          exact hk5 (by omega)

/-- The number of steps of the loop is `min(n, e)` for the first dead generation `e`, and `n`
when no generation is dead. -/
theorem steps_eq_min (g : Grid) (n k : Nat) (hk1 : 1 ≤ k) (hk2 : k ≤ n)
    (hk4 : ∀ i, 1 ≤ i → i < k → ¬ noLive (nextGrid^[i] g))
    (hk5 : k < n → noLive (nextGrid^[k] g)) :
    (∀ e, 1 ≤ e → noLive (nextGrid^[e] g) →
        (∀ i, 1 ≤ i → i < e → ¬ noLive (nextGrid^[i] g)) → k = min n e) ∧
      ((∀ e, 1 ≤ e → ¬ noLive (nextGrid^[e] g)) → k = n) ∧
      (noLive (nextGrid^[k] g) ↔ ∃ e, 1 ≤ e ∧ e ≤ n ∧ noLive (nextGrid^[e] g)) := by
  refine ⟨?_, ?_, ?_⟩
  · intro e he1 hdead hleast
    rcases Nat.lt_trichotomy k e with h | h | h
    · have : ¬ k < n := fun hlt => hleast k hk1 h (hk5 hlt)
      omega
    · omega
    · exact absurd hdead (hk4 e he1 h)
  · intro hnone
    by_contra hne
    exact hnone k hk1 (hk5 (by omega))
  · constructor
    · intro h; exact ⟨k, hk1, hk2, h⟩
    · rintro ⟨e, he1, he2, hdead⟩
      by_contra hnot
      have hkn : k = n := by
        by_contra hne
        exact hnot (hk5 (by omega))
      rcases Nat.lt_or_ge e k with h | h
      · exact hk4 e he1 h hdead
      · have : e = k := by omega
        rw [this] at hdead
        exact hnot hdead

theorem Get_get_error {σ : Type} (ls : LifeStore σ) (s : σ) (id generations : Int) (e : Error)
    (hget : ls.db.Get s id = .error e) :
    ls.Get s id generations =
      some ({ cells := [], generation := -1, final := false, err := some (.wrap "get" e) },
        s, [Event.dbGet id]) := by
  unfold LifeStore.Get
  rw [hget]

theorem Get_read_only {σ : Type} (ls : LifeStore σ) (s : σ) (id generations : Int) (b : Board)
    (hget : ls.db.Get s id = .ok b) (h : generations = 0 ∨ b.Final = true) :
    ls.Get s id generations =
      some ({ cells := b.Cells, generation := b.Generation, final := b.Final, err := none },
        s, [Event.dbGet id]) := by
  unfold LifeStore.Get
  rw [hget]
  simp only []
  rw [if_pos h]

theorem Get_write {σ : Type} (ls : LifeStore σ) (s : σ) (id generations : Int) (b b1 : Board)
    (k : Nat) (hget : ls.db.Get s id = .ok b) (h : ¬ (generations = 0 ∨ b.Final = true))
    (hloop : advanceLoop generations.toNat b = some (b1, k)) :
    ls.Get s id generations =
      some (match (ls.db.Save s id b1).1 with
          | some err =>
            { cells := [], generation := -1, final := false, err := some (.wrap "save" err) }
          | none =>
            { cells := b1.Cells, generation := b1.Generation, final := b1.Final, err := none },
        (ls.db.Save s id b1).2,
        Event.dbGet id :: (List.replicate k Event.step ++ [Event.dbSave id b1])) := by
  unfold LifeStore.Get
  rw [hget]
  simp only []
  rw [if_neg h, hloop]
  simp only []
  rcases hs : ls.db.Save s id b1 with ⟨_ | err, s1⟩ <;> rfl

/-- With a negative step count and a board that is not final, the loop runs no iteration and the
unchanged board is saved. -/
theorem Get_negative {σ : Type} (ls : LifeStore σ) (s : σ) (id generations : Int) (b : Board)
    (hget : ls.db.Get s id = .ok b) (hneg : generations < 0) (hfinal : b.Final = false) :
    ∃ res, ls.Get s id generations =
      some (res, (ls.db.Save s id b).2, [Event.dbGet id, Event.dbSave id b]) ∧
      (res.err = none → res.cells = b.Cells ∧ res.generation = b.Generation ∧
        res.final = b.Final) := by
  have h : ¬ (generations = 0 ∨ b.Final = true) := by
    rw [hfinal]; simp; omega
  have hloop : advanceLoop generations.toNat b = some (b, 0) := by
    have : generations.toNat = 0 := by omega
    rw [this]; rfl
  refine ⟨_, Get_write ls s id generations b b 0 hget h hloop, ?_⟩
  rcases hs : (ls.db.Save s id b).1 with _ | err
  · intro _; exact ⟨rfl, rfl, rfl⟩
  · intro k; simp at k

theorem memDB_Get_after_Save (s s1 : MemState) (id : Int) (b : Board)
    (h : memDB.Save s id b = (none, s1)) : memDB.Get s1 id = .ok b := by
  simp only [memDB, Prod.mk.injEq, true_and] at h
  subst h
  simp [memDB, List.lookup]

theorem advanceLoop_total (n : Nat) (b : Board) : ∃ b1 k, advanceLoop n b = some (b1, k) := by
  by_cases hn : n = 0
  · subst hn; exact ⟨b, 0, rfl⟩
  · obtain ⟨k, _, _, h, _⟩ := advanceLoop_spec n (by omega) b
    exact ⟨_, k, h⟩

/-- Once the port holds a final board under `id`, every `Get` on `id` returns that board's
values and leaves the store as it is. -/
theorem GetEach_frozen {σ : Type} (ls : LifeStore σ) (s : σ) (id : Int) (b : Board)
    (hget : ls.db.Get s id = .ok b) (hfinal : b.Final = true) (ms : List Int) :
    ls.GetEach s id ms =
      some (List.replicate ms.length
        { cells := b.Cells, generation := b.Generation, final := true, err := none }) := by
  induction ms with
  | nil => rfl
  | cons n ns ih =>
    unfold LifeStore.GetEach
    rw [Get_read_only ls s id n b hget (Or.inr hfinal)]
    simp only []
    rw [ih, hfinal]
    rfl

/-- A `Get` that returns `final = true` without error leaves the port holding the returned
values as a final board, when the port returns what was last saved. -/
theorem Get_final_stored {σ : Type} (ls : LifeStore σ)
    (hport : ∀ s id b s1, ls.db.Save s id b = (none, s1) → ls.db.Get s1 id = .ok b)
    (s s1 : σ) (id n : Int) (res : GetResult) (log : List Event)
    (hGet : ls.Get s id n = some (res, s1, log)) (herr : res.err = none)
    (hfin : res.final = true) :
    ls.db.Get s1 id = .ok { Cells := res.cells, Generation := res.generation, Final := true } := by
  cases hg : ls.db.Get s id with
  | error e =>
    rw [Get_get_error ls s id n e hg] at hGet
    simp only [Option.some.injEq, Prod.mk.injEq] at hGet
    rw [← hGet.1] at herr
    simp at herr
  | ok b =>
    by_cases h : n = 0 ∨ b.Final = true
    · rw [Get_read_only ls s id n b hg h] at hGet
      simp only [Option.some.injEq, Prod.mk.injEq] at hGet
      obtain ⟨h1, h2, _⟩ := hGet
      subst h1 h2
      simp only [] at hfin ⊢
      rw [hg, ← hfin]
    · obtain ⟨b1, k, hloop⟩ := advanceLoop_total n.toNat b
      rw [Get_write ls s id n b b1 k hg h hloop] at hGet
      simp only [Option.some.injEq, Prod.mk.injEq] at hGet
      obtain ⟨h1, h2, _⟩ := hGet
      rcases hs : ls.db.Save s id b1 with ⟨_ | err, s2⟩
      · rw [hs] at h1 h2
        simp only [] at h1 h2
        subst h1 h2
        simp only [] at hfin ⊢
        rw [hport s id b1 s2 hs, ← hfin]
      · rw [hs] at h1
        simp only [] at h1
        rw [← h1] at herr
        simp at herr

theorem advanceLoop_alive (n : Nat) (hn : 1 ≤ n) (b : Board)
    (halive : ∀ i, 1 ≤ i → ¬ noLive (nextGrid^[i] b.Cells)) :
    advanceLoop n b =
      some ({ Cells := nextGrid^[n] b.Cells, Generation := wrapInt (b.Generation + n),
              Final := false },
        n) := by
  obtain ⟨k, hk1, hk2, hk3, _, hk5⟩ := advanceLoop_spec n hn b
  have hkn : k = n := by
    by_contra hne
    exact halive k hk1 (hk5 (by omega))
  subst hkn
  rw [hk3, decide_eq_false (halive k hk1)]

theorem NextGeneration_blinkerH : life.NextGeneration blinkerH = some (blinkerV, false) := by
  decide

theorem NextGeneration_blinkerV : life.NextGeneration blinkerV = some (blinkerH, false) := by
  decide

theorem nextGrid_blinkerH : nextGrid blinkerH = blinkerV := by
  unfold nextGrid; rw [NextGeneration_blinkerH]

theorem nextGrid_blinkerV : nextGrid blinkerV = blinkerH := by
  unfold nextGrid; rw [NextGeneration_blinkerV]

theorem iterate_blinkerH (n : Nat) :
    nextGrid^[n] blinkerH = if n % 2 = 0 then blinkerH else blinkerV := by
  induction n with
  | zero => rfl
  | succ n ih =>
    rw [Function.iterate_succ_apply', ih]
    by_cases h : n % 2 = 0
    · have h1 : ¬ (n + 1) % 2 = 0 := by omega
      rw [if_pos h, if_neg h1, nextGrid_blinkerH]
    · have h1 : (n + 1) % 2 = 0 := by omega
      rw [if_neg h, if_pos h1, nextGrid_blinkerV]

theorem blinker_alive (n : Nat) : ¬ noLive (nextGrid^[n] blinkerH) := by
  rw [iterate_blinkerH]
  split <;> decide

theorem iterate_blinkerV (n : Nat) : nextGrid^[n] blinkerV = nextGrid^[n + 1] blinkerH := by
  rw [Function.iterate_succ_apply, nextGrid_blinkerH]

theorem count_step_log (id : Int) (b1 : Board) (k : Nat) :
    (Event.dbGet id :: (List.replicate k Event.step ++ [Event.dbSave id b1])).count Event.step
      = k := by
  simp [List.count_replicate]

/-! ## The claims -/

/-- C1: for every grid `g` (rows may differ in length) and every position `(r, c)` inside `g`,
`NextGeneration g` returns a grid whose cell `(r, c)` is alive exactly when the number `n` of
live neighbours of `(r, c)` in `g` is 3, or `n` is 2 and `g[r][c]` is alive; `n` is at most 8
and for every other `n` the cell is dead. -/
theorem C1_NextGeneration_rule (g : Grid) (r c : Nat) (h : inside g r c) :
    ∃ next final alive, life.NextGeneration g = some (next, final) ∧
      cellAt g r c = some alive ∧
      liveNeighbours g r c ≤ 8 ∧
      cellAt next r c =
        some (decide (liveNeighbours g r c = 3 ∨ (liveNeighbours g r c = 2 ∧ alive = true))) ∧
      (liveNeighbours g r c ≠ 3 → liveNeighbours g r c ≠ 2 → cellAt next r c = some false) := by
  obtain ⟨next, final, hN, _, hcells, _⟩ := NextGeneration_spec g
  refine ⟨next, final, (g.getD r []).getD c false, hN, cellAt_eq_some_of_inside g r c h,
    liveNeighbours_le_eight g r c, ?_, ?_⟩
  · rw [hcells r c h]; rfl
  · intro h3 h2
    rw [hcells r c h]
    simp [nextCell, rule, h3, h2]

theorem C1_NextGeneration_rule_witness :
    inside [[true, true], [true], []] 0 0 ∧
    ∃ next final alive, life.NextGeneration [[true, true], [true], []] = some (next, final) ∧
      cellAt [[true, true], [true], []] 0 0 = some alive ∧
      liveNeighbours [[true, true], [true], []] 0 0 ≤ 8 ∧
      cellAt next 0 0 =
        some (decide (liveNeighbours [[true, true], [true], []] 0 0 = 3 ∨
          (liveNeighbours [[true, true], [true], []] 0 0 = 2 ∧ alive = true))) ∧
      (liveNeighbours [[true, true], [true], []] 0 0 ≠ 3 →
        liveNeighbours [[true, true], [true], []] 0 0 ≠ 2 → cellAt next 0 0 = some false) :=
  ⟨by decide, C1_NextGeneration_rule [[true, true], [true], []] 0 0 (by decide)⟩

/-- C2: for every grid (possibly jagged) and every position `(x, y)`, in particular every one
inside the grid, `countNeighbors(x, y)` returns, without reading out of bounds, the number of
positions `(i, j) ≠ (x, y)` with `|i - x| ≤ 1`, `|j - y| ≤ 1`, `0 ≤ i < len(g)`,
`0 ≤ j < len(g[i])` and `g[i][j]` alive. -/
theorem C2_countNeighbors_count (b : life.board) (x y : Int) :
    life.countNeighbors b x y =
      some (((Finset.Icc (x - 1) (x + 1) ×ˢ Finset.Icc (y - 1) (y + 1)).filter
        (fun p => p ≠ (x, y) ∧ 0 ≤ p.1 ∧ p.1 < b.current.length ∧ 0 ≤ p.2 ∧
          p.2 < (b.current.getD p.1.toNat []).length ∧
          (b.current.getD p.1.toNat []).getD p.2.toNat false = true)).card : Int) := by
  rw [countNeighbors_eq]
  rfl

/-- C3: for every grid `g`, `NextGeneration g` returns a flag that is true if and only if the
returned grid holds no live cell; for the empty grid the returned grid is empty and the flag is
true, and when the returned grid equals `g` and `g` has a live cell the flag is false. -/
theorem C3_final_iff_noLive (g : Grid) :
    ∃ next final, life.NextGeneration g = some (next, final) ∧
      (final = true ↔ ∀ row ∈ next, ∀ cell ∈ row, cell = false) ∧
      (g = [] → next = [] ∧ final = true) ∧
      (next = g → (∃ row ∈ g, ∃ cell ∈ row, cell = true) → final = false) := by
  refine ⟨nextGrid g, decide (noLive (nextGrid g)), NextGeneration_eq g, ?_, ?_, ?_⟩
  · rw [decide_eq_true_iff]; rfl
  · intro hg
    subst hg
    decide
  · intro hg hlive
    rw [hg, decide_eq_false_iff_not]
    intro hno
    obtain ⟨row, hrow, cell, hcell, hc⟩ := hlive
    have := hno row hrow cell hcell
    rw [hc] at this
    cases this

/-- C4: for every grid `g`, jagged grids and grids with empty rows included, the grid returned
by `NextGeneration g` has as many rows as `g` and its row `i` is as long as row `i` of `g`. -/
theorem C4_same_dimensions (g : Grid) :
    ∃ next final, life.NextGeneration g = some (next, final) ∧
      next.length = g.length ∧
      (∀ i, i < g.length → (next.getD i []).length = (g.getD i []).length) ∧
      next.map List.length = g.map List.length := by
  obtain ⟨next, final, hN, hshape, _, _⟩ := NextGeneration_spec g
  exact ⟨next, final, hN, length_eq_of_shape g next hshape,
    fun i _ => rowLen_eq_of_shape g next hshape i, hshape⟩

/-- C5 (as stated, at the top of the range of `int`): a board stored with generation `2^63 - 1`
and advanced by one step comes back with generation `-2^63`, not with the stored generation
plus 1. -/
theorem C5_generation_wraps :
    (LifeStore.Get ⟨memDB⟩
        { seq := 1
          records := [(1, { Cells := [[true]], Generation := 9223372036854775807,
                            Final := false })] } 1 1).map Prod.fst =
      some { cells := [[false]], generation := -9223372036854775808, final := true,
             err := none } ∧
    (-9223372036854775808 : Int) ≠ 9223372036854775807 + 1 := by
  constructor
  · rfl
  · decide

/-- C5 (amended): for every stored board with `Final = false` and every `steps ≥ 1`,
`Get(id, steps)` runs `NextGeneration` exactly `k = min(steps, e)` times, `e` being the least
number `≥ 1` of steps after which the grid has no live cell (`k = steps` if there is none); when
it returns without error (that is, when the port's `Save` succeeds) the grid is the `k`-fold
iterate of the stored grid, the generation is the stored one plus `k` in the arithmetic of Go's
`int`, which is the stored one plus `k` whenever that sum is at most `2^63 - 1`, and the flag is
true exactly when `e ≤ steps`.  The 5x5 pattern of the test, requested with `steps = 100`,
returns generation 14, final true and the all-dead grid. -/
theorem C5_steps_applied :
    (∀ (σ : Type) (ls : LifeStore σ) (s : σ) (id steps : Int) (b : Board),
      ls.db.Get s id = .ok b → b.Final = false → 1 ≤ steps →
      ∃ k : Nat, 1 ≤ k ∧ (k : Int) ≤ steps ∧
        (∀ e : Nat, 1 ≤ e → noLive (nextGrid^[e] b.Cells) →
          (∀ i, 1 ≤ i → i < e → ¬ noLive (nextGrid^[i] b.Cells)) → (k : Int) = min steps e) ∧
        ((∀ e : Nat, 1 ≤ e → ¬ noLive (nextGrid^[e] b.Cells)) → (k : Int) = steps) ∧
        ∃ res s1 log, ls.Get s id steps = some (res, s1, log) ∧
          log.count Event.step = k ∧
          (res.err = none ↔
            (ls.db.Save s id
              { Cells := nextGrid^[k] b.Cells, Generation := wrapInt (b.Generation + k),
                Final := decide (noLive (nextGrid^[k] b.Cells)) }).1 = none) ∧
          (res.err = none →
            res.cells = nextGrid^[k] b.Cells ∧
            res.generation = wrapInt (b.Generation + k) ∧
            (-9223372036854775808 ≤ b.Generation → b.Generation + k ≤ 9223372036854775807 →
              res.generation = b.Generation + k) ∧
            (res.final = true ↔
              ∃ e : Nat, 1 ≤ e ∧ (e : Int) ≤ steps ∧ noLive (nextGrid^[e] b.Cells)))) ∧
    (LifeStore.Get ⟨memDB⟩ testState 3 100).map Prod.fst =
      some { cells := dead5, generation := 14, final := true, err := none } := by
  refine ⟨?_, by decide⟩
  intro σ ls s bid steps b hget hfinal hsteps
  obtain ⟨k, hk1, hk2, hk3, hk4, hk5⟩ := advanceLoop_spec steps.toNat (by omega) b
  obtain ⟨hmin, hnone, hflag⟩ := steps_eq_min b.Cells steps.toNat k hk1 hk2 hk4 hk5
  have hnot : ¬ (steps = 0 ∨ b.Final = true) := by
    rw [hfinal]; simp; omega
  have hcast : (steps.toNat : Int) = steps := Int.toNat_of_nonneg (by omega)
  refine ⟨k, hk1, by omega, ?_, ?_, _, _, _, Get_write ls s bid steps b _ k hget hnot hk3, ?_, ?_, ?_⟩
  · intro e he1 hdead hleast
    rw [hmin e he1 hdead hleast, Nat.cast_min, hcast]
  · intro h
    rw [hnone h, hcast]
  · simp [List.count_replicate]
  · rcases hs : (ls.db.Save s bid
        { Cells := nextGrid^[k] b.Cells, Generation := wrapInt (b.Generation + k),
          Final := decide (noLive (nextGrid^[k] b.Cells)) }).1 with _ | err <;> simp
  · rcases hs : (ls.db.Save s bid
        { Cells := nextGrid^[k] b.Cells, Generation := wrapInt (b.Generation + k),
          Final := decide (noLive (nextGrid^[k] b.Cells)) }).1 with _ | err
    · intro _
      refine ⟨rfl, rfl, ?_, ?_⟩
      · intro h0 h1
        exact wrapInt_of_range _ (by omega) h1
      · simp only [decide_eq_true_iff]
        rw [hflag]
        constructor
        · rintro ⟨e, h1, h2, h3⟩; exact ⟨e, h1, by omega, h3⟩
        · rintro ⟨e, h1, h2, h3⟩; exact ⟨e, h1, by omega, h3⟩
    · intro h; simp at h

theorem C5_steps_applied_witness :
    memDB.Get testState 3 = .ok { Cells := dyingGrid, Generation := 0, Final := false } ∧
    (1 : Int) ≤ 100 ∧
    ∃ k : Nat, 1 ≤ k ∧ (k : Int) ≤ 100 ∧
      (∀ e : Nat, 1 ≤ e → noLive (nextGrid^[e] dyingGrid) →
        (∀ i, 1 ≤ i → i < e → ¬ noLive (nextGrid^[i] dyingGrid)) →
        (k : Int) = min (100 : Int) (e : Int)) ∧
      ((∀ e : Nat, 1 ≤ e → ¬ noLive (nextGrid^[e] dyingGrid)) → (k : Int) = 100) ∧
      ∃ res s1 log, LifeStore.Get ⟨memDB⟩ testState 3 100 = some (res, s1, log) ∧
        log.count Event.step = k ∧
        (res.err = none ↔
          (memDB.Save testState 3
            { Cells := nextGrid^[k] dyingGrid, Generation := wrapInt (0 + k),
              Final := decide (noLive (nextGrid^[k] dyingGrid)) }).1 = none) ∧
        (res.err = none →
          res.cells = nextGrid^[k] dyingGrid ∧
          res.generation = wrapInt (0 + k) ∧
          (-9223372036854775808 ≤ (0 : Int) → (0 : Int) + k ≤ 9223372036854775807 →
            res.generation = 0 + k) ∧
          (res.final = true ↔
            ∃ e : Nat, 1 ≤ e ∧ (e : Int) ≤ 100 ∧ noLive (nextGrid^[e] dyingGrid))) :=
  ⟨rfl, by decide,
    C5_steps_applied.1 MemState ⟨memDB⟩ testState 3 100
      { Cells := dyingGrid, Generation := 0, Final := false } rfl rfl (by decide)⟩

/-- C6 (the code at a negative step count): with `steps = -1` on the test's first board, which
is not final, `Get` returns the stored values unchanged and issues a `Save` of the unchanged
board on the port. -/
theorem C6_negative_steps_save :
    LifeStore.Get ⟨memDB⟩ testState 1 (-1) =
      some ({ cells := [[true]], generation := 0, final := false, err := none },
        { seq := 4
          records := (1, { Cells := [[true]], Generation := 0, Final := false })
            :: testState.records },
        [Event.dbGet 1, Event.dbSave 1 { Cells := [[true]], Generation := 0, Final := false }])
    := by
  decide

/-- C7: for every stored board whose `Final` flag is true and every step count `n`,
`Get(id, n)` returns exactly the stored grid, generation and flag, calls neither
`NextGeneration` nor `Save` and leaves the store as it is; and once a `Get` has returned
`final = true` for an id, over a port that returns what was last saved, each later `Get` on that
id returns the same values. -/
theorem C7_final_frozen :
    (∀ (σ : Type) (ls : LifeStore σ) (s : σ) (id n : Int) (b : Board),
      ls.db.Get s id = .ok b → b.Final = true →
      ls.Get s id n =
        some ({ cells := b.Cells, generation := b.Generation, final := true, err := none },
          s, [Event.dbGet id])) ∧
    (∀ (σ : Type) (ls : LifeStore σ),
      (∀ s id b s1, ls.db.Save s id b = (none, s1) → ls.db.Get s1 id = .ok b) →
      ∀ (s s1 : σ) (id n : Int) (res : GetResult) (log : List Event),
        ls.Get s id n = some (res, s1, log) → res.err = none → res.final = true →
        ∀ ms : List Int, ls.GetEach s1 id ms = some (List.replicate ms.length res)) := by
  constructor
  · intro σ ls s id n b hget hfinal
    rw [Get_read_only ls s id n b hget (Or.inr hfinal), hfinal]
  · intro σ ls hport s s1 id n res log hGet herr hfin ms
    have hstored := Get_final_stored ls hport s s1 id n res log hGet herr hfin
    rw [GetEach_frozen ls s1 id _ hstored rfl ms]
    congr 2
    cases res
    simp only [] at herr hfin
    subst herr hfin
    rfl

theorem C7_final_frozen_witness :
    (memDB.Get { seq := 4, records := [(3, { Cells := dead5, Generation := 14, Final := true })] }
        3 = .ok { Cells := dead5, Generation := 14, Final := true } ∧
      LifeStore.Get ⟨memDB⟩
          { seq := 4, records := [(3, { Cells := dead5, Generation := 14, Final := true })] } 3 5 =
        some ({ cells := dead5, generation := 14, final := true, err := none },
          { seq := 4, records := [(3, { Cells := dead5, Generation := 14, Final := true })] },
          [Event.dbGet 3])) ∧
    ((∀ s id b s1, memDB.Save s id b = (none, s1) → memDB.Get s1 id = .ok b) ∧
      LifeStore.GetEach ⟨memDB⟩
          { testState with
            records := (3, { Cells := dead5, Generation := 14, Final := true })
              :: testState.records } 3 [1, 0, -3] =
        some (List.replicate 3
          { cells := dead5, generation := 14, final := true, err := none })) :=
  ⟨⟨rfl,
    C7_final_frozen.1 MemState ⟨memDB⟩ _ 3 5 { Cells := dead5, Generation := 14, Final := true }
      rfl rfl⟩,
   ⟨fun s id b s1 h => memDB_Get_after_Save s s1 id b h,
    C7_final_frozen.2 MemState ⟨memDB⟩ (fun s id b s1 h => memDB_Get_after_Save s s1 id b h)
      testState _ 3 100
      { cells := dead5, generation := 14, final := true, err := none }
      (Event.dbGet 3 :: (List.replicate 14 Event.step ++
        [Event.dbSave 3 { Cells := dead5, Generation := 14, Final := true }]))
      (by decide) rfl rfl [1, 0, -3]⟩⟩

/-- C8: for every stored board with `Final = false` and every `steps ≥ 1`, `Get(id, steps)`
issues exactly one `Save` call, as its last event after the `k ≥ 1` steps of the loop, for the
same id; the board passed to `Save` has the `Cells`, `Generation` and `Final` that `Get` returns
when it returns without error, so no intermediate generation is saved. -/
theorem C8_single_save {σ : Type} (ls : LifeStore σ) (s : σ) (id steps : Int) (b : Board)
    (hget : ls.db.Get s id = .ok b) (hfinal : b.Final = false) (hsteps : 1 ≤ steps) :
    ∃ res s1 log b1 k, ls.Get s id steps = some (res, s1, log) ∧ 1 ≤ k ∧
      log = Event.dbGet id :: (List.replicate k Event.step ++ [Event.dbSave id b1]) ∧
      log.countP Event.isSave = 1 ∧
      s1 = (ls.db.Save s id b1).2 ∧
      (res.err = none ↔ (ls.db.Save s id b1).1 = none) ∧
      (res.err = none →
        res.cells = b1.Cells ∧ res.generation = b1.Generation ∧ res.final = b1.Final) := by
  obtain ⟨k, hk1, _, hk3, _, _⟩ := advanceLoop_spec steps.toNat (by omega) b
  have hnot : ¬ (steps = 0 ∨ b.Final = true) := by
    rw [hfinal]; simp; omega
  refine ⟨_, _, _, _, k, Get_write ls s id steps b _ k hget hnot hk3, hk1, rfl, ?_, rfl, ?_, ?_⟩
  · rw [List.countP_cons_of_neg _ _ (by simp [Event.isSave]), List.countP_append]
    have h0 : List.countP Event.isSave (List.replicate k Event.step) = 0 := by
      rw [List.countP_eq_zero]
      intro e he
      rw [List.eq_of_mem_replicate he]
      simp [Event.isSave]
    rw [h0]
    simp [Event.isSave]
  · rcases hs : (ls.db.Save s id
        { Cells := nextGrid^[k] b.Cells, Generation := wrapInt (b.Generation + k),
          Final := decide (noLive (nextGrid^[k] b.Cells)) }).1 with _ | err <;> simp
  · rcases hs : (ls.db.Save s id
        { Cells := nextGrid^[k] b.Cells, Generation := wrapInt (b.Generation + k),
          Final := decide (noLive (nextGrid^[k] b.Cells)) }).1 with _ | err
    · intro _; exact ⟨rfl, rfl, rfl⟩
    · intro h; simp at h

theorem C8_single_save_witness :
    memDB.Get testState 2 = .ok { Cells := blinkerH, Generation := 0, Final := false } ∧
    (1 : Int) ≤ 1 ∧
    ∃ res s1 log b1 k, LifeStore.Get ⟨memDB⟩ testState 2 1 = some (res, s1, log) ∧ 1 ≤ k ∧
      log = Event.dbGet 2 :: (List.replicate k Event.step ++ [Event.dbSave 2 b1]) ∧
      log.countP Event.isSave = 1 ∧
      s1 = (memDB.Save testState 2 b1).2 ∧
      (res.err = none ↔ (memDB.Save testState 2 b1).1 = none) ∧
      (res.err = none →
        res.cells = b1.Cells ∧ res.generation = b1.Generation ∧ res.final = b1.Final) :=
  ⟨rfl, by decide,
    C8_single_save ⟨memDB⟩ testState 2 1 { Cells := blinkerH, Generation := 0, Final := false }
      rfl rfl (by decide)⟩

/-- C9: `Get(id, steps)` returns an error if and only if the port's `Get` fails or a `Save` is
issued and fails.  When the port's `Get` fails, with `ErrNotFound` for an unknown id included,
the returned error wraps the port's error under `get`, no `NextGeneration` step is run, no
`Save` is issued and the store is as before; when `Save` fails the returned error wraps the
`Save` error under `save` and the other returned values are `nil`, `-1` and `false`. -/
theorem C9_errors :
    (∀ (σ : Type) (ls : LifeStore σ) (s : σ) (id steps : Int),
      ∃ res s1 log, ls.Get s id steps = some (res, s1, log) ∧
        (res.err ≠ none ↔
          ((∃ e, ls.db.Get s id = .error e) ∨
            ∃ b1, Event.dbSave id b1 ∈ log ∧ (ls.db.Save s id b1).1 ≠ none)) ∧
        (∀ e, ls.db.Get s id = .error e →
          res = { cells := [], generation := -1, final := false, err := some (.wrap "get" e) } ∧
          s1 = s ∧ log = [Event.dbGet id] ∧
          ∀ target, e.Is target = true → (Error.wrap "get" e).Is target = true) ∧
        (∀ b1 e, Event.dbSave id b1 ∈ log → (ls.db.Save s id b1).1 = some e →
          res = { cells := [], generation := -1, final := false, err := some (.wrap "save" e) } ∧
          ∀ target, e.Is target = true → (Error.wrap "save" e).Is target = true)) ∧
    (LifeStore.Get ⟨memDB⟩ testState 7 3 =
        some ({ cells := [], generation := -1, final := false,
                err := some (.wrap "get" (.wrap "view" ErrNotFound)) }, testState,
          [Event.dbGet 7]) ∧
      (Error.wrap "get" (.wrap "view" ErrNotFound)).Is ErrNotFound = true) ∧
    (LifeStore.Get ⟨readOnlyDB⟩ testState 1 3 =
        some ({ cells := [], generation := -1, final := false,
                err := some (.wrap "save" (.wrap "update" (.wrap "put"
                  (.new "database is in read-only mode")))) },
          testState,
          [Event.dbGet 1, Event.step,
            Event.dbSave 1 { Cells := [[false]], Generation := 1, Final := true }]) ∧
      memDB.Get testState 1 = .ok { Cells := [[true]], Generation := 0, Final := false }) := by
  refine ⟨?_, ⟨by decide, by decide⟩, ⟨by decide, rfl⟩⟩
  intro σ ls s bid steps
  have hIs : ∀ (ctx : String) (e target : Error), e.Is target = true →
      (Error.wrap ctx e).Is target = true := by
    intro ctx e target h
    simp [Error.Is, h]
  cases hg : ls.db.Get s bid with
  | error e0 =>
    refine ⟨_, _, _, Get_get_error ls s bid steps e0 hg, ?_, ?_, ?_⟩
    · simp
    · intro e he
      cases he
      exact ⟨rfl, rfl, rfl, hIs "get" _⟩
    · intro b1 e hmem
      simp at hmem
  | ok b =>
    by_cases h : steps = 0 ∨ b.Final = true
    · refine ⟨_, _, _, Get_read_only ls s bid steps b hg h, ?_, ?_, ?_⟩
      · simp
      · intro e he; cases he
      · intro b1 e hmem
        simp at hmem
    · obtain ⟨b1, k, hloop⟩ := advanceLoop_total steps.toNat b
      refine ⟨_, _, _, Get_write ls s bid steps b b1 k hg h hloop, ?_, ?_, ?_⟩
      · have hmem : ∀ b2, Event.dbSave bid b2 ∈
            Event.dbGet bid :: (List.replicate k Event.step ++ [Event.dbSave bid b1]) ↔
            b2 = b1 := by
          intro b2
          simp [List.mem_replicate]
        simp only [hmem, exists_eq_left]
        rcases hs : (ls.db.Save s bid b1).1 with _ | err <;> simp
      · intro e he; cases he
      · intro b2 e hmem hsave
        have hb : b2 = b1 := by
          simpa [List.mem_replicate] using hmem
        subst hb
        rw [hsave]
        exact ⟨rfl, hIs "save" e⟩

/-- C10: applying `NextGeneration` `n` times to the 5x5 blinker yields the horizontal blinker
when `n` is even and the vertical one when `n` is odd, and the flag it returns is false at every
step.  On the test's store, advancing board 2 by 1 gives the vertical blinker at generation 1,
advancing it by a further 75 gives the horizontal blinker at generation 76, and advancing
board 4 by 1000 ends at generation 1000 with final = false. -/
theorem C10_blinker :
    (∀ n, nextGrid^[n] blinkerH = if n % 2 = 0 then blinkerH else blinkerV) ∧
    (∀ n, life.NextGeneration (nextGrid^[n] blinkerH) = some (nextGrid^[n + 1] blinkerH, false)) ∧
    (LifeStore.Get ⟨memDB⟩ testState 2 1 =
        some ({ cells := blinkerV, generation := 1, final := false, err := none },
          { seq := 4
            records := (2, { Cells := blinkerV, Generation := 1, Final := false })
              :: testState.records },
          [Event.dbGet 2, Event.step,
            Event.dbSave 2 { Cells := blinkerV, Generation := 1, Final := false }]) ∧
      ∃ s2 log2,
        LifeStore.Get ⟨memDB⟩
            { seq := 4
              records := (2, { Cells := blinkerV, Generation := 1, Final := false })
                :: testState.records } 2 75 =
          some ({ cells := blinkerH, generation := 76, final := false, err := none },
            s2, log2)) ∧
    (∃ s1 log,
      LifeStore.Get ⟨memDB⟩ testState 4 1000 =
        some ({ cells := blinkerH, generation := 1000, final := false, err := none }, s1, log) ∧
      log.count Event.step = 1000) := by
  refine ⟨iterate_blinkerH, ?_, ?_, ?_⟩
  · intro n
    rw [NextGeneration_eq, Function.iterate_succ_apply', decide_eq_false]
    rw [← Function.iterate_succ_apply' nextGrid n blinkerH]
    exact blinker_alive (n + 1)
  · refine ⟨by decide, ?_⟩
    have hloop := advanceLoop_alive 75 (by decide)
      { Cells := blinkerV, Generation := 1, Final := false }
      (fun i _ => by rw [iterate_blinkerV]; exact blinker_alive (i + 1))
    have hG := Get_write ⟨memDB⟩
      { seq := 4
        records := (2, { Cells := blinkerV, Generation := 1, Final := false })
          :: testState.records }
      2 75 { Cells := blinkerV, Generation := 1, Final := false } _ 75 rfl (by decide) hloop
    rw [iterate_blinkerV, iterate_blinkerH] at hG
    rw [hG]
    exact ⟨_, _, rfl⟩
  · have hloop := advanceLoop_alive 1000 (by decide)
      { Cells := blinkerH, Generation := 0, Final := false }
      (fun i _ => blinker_alive i)
    have hG := Get_write ⟨memDB⟩ testState 4 1000
      { Cells := blinkerH, Generation := 0, Final := false } _ 1000 rfl (by decide) hloop
    rw [iterate_blinkerH] at hG
    rw [hG]
    exact ⟨_, _, rfl, count_step_log 4 _ 1000⟩

/-! ## The request handler -/

open server

/-- The arguments of the call of `ls.Get` for a request with a readable id and a `state`
parameter that reads as the integer `K`: the call is made with `min(1000, K)` unless the path
ends in `/final` and that number is below 1. -/
theorem handleBoardGetArgs_state (atoi : String → Option Int) (r : Request) (idInt K : Int)
    (stateParam : String) (hid : atoi r.id = some idInt) (hstate : r.state = some stateParam)
    (hK : atoi stateParam = some K) :
    handleBoardGetArgs atoi r =
      if finalRequired r = true ∧ min 1000 K < 1 then
        .error (.error "state must be greater than 0" 400)
      else .ok (idInt, min 1000 K) := by
  unfold handleBoardGetArgs
  rw [hid]
  simp only [hstate, hK]

/-- The arguments of the call of `ls.Get` for a request with a readable id and no `state`
parameter. -/
theorem handleBoardGetArgs_absent (atoi : String → Option Int) (r : Request) (idInt : Int)
    (hid : atoi r.id = some idInt) (hstate : r.state = none) :
    handleBoardGetArgs atoi r =
      if finalRequired r = true ∧ (0 : Int) < 1 then
        .error (.error "state must be greater than 0" 400)
      else .ok (idInt, 0) := by
  unfold handleBoardGetArgs
  rw [hid]
  simp only [hstate]

/-- C11 (as stated, at `state=-1`): on `GET /board/1?state=-1` the parameter reads as `-1` and
`handleBoardGet` calls `ls.Get(1, -1)`: the step count passed is `-1`, which is neither 0 nor in
`[0, 1000]`; on the test's store that call saves board 1 unchanged. -/
theorem C11_negative_state_passed :
    decimalAtoi "-1" = some (-1) ∧
    handleBoardGetArgs decimalAtoi { id := "1", path := "/board/1", state := some "-1" } =
      .ok (1, -1) ∧
    ¬ ((0 : Int) ≤ -1 ∧ (-1 : Int) ≤ 1000) ∧ (-1 : Int) ≠ 0 ∧
    handleBoardGet decimalAtoi ⟨memDB⟩ testState
        { id := "1", path := "/board/1", state := some "-1" } =
      some (.output 1 [[true]] 0 false,
        { seq := 4
          records := (1, { Cells := [[true]], Generation := 0, Final := false })
            :: testState.records },
        [Event.dbGet 1, Event.dbSave 1 { Cells := [[true]], Generation := 0, Final := false }])
    := by
  refine ⟨by decide, rfl, by decide, by decide, by decide⟩

/-- C11 (amended): for a request `GET /board/{id}` whose id reads as `idInt` and whose path does
not end in `/final`, `handleBoardGet` calls `ls.Get(idInt, steps)` with `steps = min(1000, K)`
when the `state` parameter reads as the integer `K`: `steps` is at most 1000, it is `K` when
`K ≤ 1000`, so it lies in `[0, 1000]` when `0 ≤ K`, and it is 1000 when `K > 1000`; there is no
lower clamp.  When the `state` parameter is absent the call is made with `steps = 0`. -/
theorem C11_steps_min (atoi : String → Option Int) (r : Request) (idInt : Int)
    (hid : atoi r.id = some idInt) (hpath : finalRequired r = false) :
    (∀ stateParam K, r.state = some stateParam → atoi stateParam = some K →
      ∃ steps, handleBoardGetArgs atoi r = .ok (idInt, steps) ∧
        steps = min 1000 K ∧ steps ≤ 1000 ∧
        (K ≤ 1000 → steps = K) ∧
        (0 ≤ K → 0 ≤ steps ∧ steps ≤ 1000) ∧
        (1000 < K → steps = 1000)) ∧
    (r.state = none → handleBoardGetArgs atoi r = .ok (idInt, 0)) ∧
    (∀ (σ : Type) (ls : LifeStore σ) (s : σ) (steps : Int),
      handleBoardGetArgs atoi r = .ok (idInt, steps) →
      ∀ res s1 log, ls.Get s idInt steps = some (res, s1, log) →
        ∃ resp, handleBoardGet atoi ls s r = some (resp, s1, log)) := by
  refine ⟨?_, ?_, ?_⟩
  · intro stateParam K hstate hK
    refine ⟨min 1000 K, ?_, rfl, min_le_left _ _, ?_, ?_, ?_⟩
    · rw [handleBoardGetArgs_state atoi r idInt K stateParam hid hstate hK, hpath]
      simp
    · intro h; exact min_eq_right h
    · intro h; exact ⟨le_min (by decide) h, min_le_left _ _⟩
    · intro h; exact min_eq_left (le_of_lt h)
  · intro hstate
    rw [handleBoardGetArgs_absent atoi r idInt hid hstate, hpath]
    simp
  · intro σ ls s steps hargs res s1 log hGet
    unfold handleBoardGet
    rw [hargs]
    simp only [hGet]
    rcases res.err with _ | err
    · simp only [hpath]
      exact ⟨_, rfl⟩
    · simp only []
      split <;> exact ⟨_, rfl⟩

theorem C11_steps_min_witness :
    decimalAtoi "2" = some 2 ∧
    finalRequired { id := "2", path := "/board/2", state := some "1075" } = false ∧
    ((∀ stateParam K,
        (some "1075" : Option String) = some stateParam → decimalAtoi stateParam = some K →
        ∃ steps,
          handleBoardGetArgs decimalAtoi { id := "2", path := "/board/2", state := some "1075" } =
            .ok (2, steps) ∧
          steps = min 1000 K ∧ steps ≤ 1000 ∧
          (K ≤ 1000 → steps = K) ∧
          (0 ≤ K → 0 ≤ steps ∧ steps ≤ 1000) ∧
          (1000 < K → steps = 1000)) ∧
      ((some "1075" : Option String) = none →
        handleBoardGetArgs decimalAtoi { id := "2", path := "/board/2", state := some "1075" } =
          .ok (2, 0)) ∧
      (∀ (σ : Type) (ls : LifeStore σ) (s : σ) (steps : Int),
        handleBoardGetArgs decimalAtoi { id := "2", path := "/board/2", state := some "1075" } =
          .ok (2, steps) →
        ∀ res s1 log, ls.Get s 2 steps = some (res, s1, log) →
          ∃ resp,
            handleBoardGet decimalAtoi ls s
              { id := "2", path := "/board/2", state := some "1075" } =
              some (resp, s1, log))) ∧
    decimalAtoi "1075" = some 1075 ∧
    handleBoardGetArgs decimalAtoi { id := "2", path := "/board/2", state := some "1075" } =
      .ok (2, 1000) :=
  ⟨by decide, by decide,
    C11_steps_min decimalAtoi { id := "2", path := "/board/2", state := some "1075" } 2
      (by decide) (by decide),
    by decide, rfl⟩
